import Mathlib

/-!
Shallow embedding of the mesh core of the repository (src/cloudvolume/mesh.py).

Modelling conventions, used consistently below:

* A numpy float32 scalar is modelled by its 32-bit pattern, a natural
  number below 2^32.  The byte codecs (the precomputed format) and the
  equality operator of numpy are bit-faithful under this view: numpy
  comparison of float32 values is modelled by feq32, which treats the two
  zero patterns as equal and makes a NaN pattern unequal to everything,
  exactly as IEEE 754 comparison does.
* The chunk-boundary deduplication functions perform modular arithmetic on
  coordinates, so for those the coordinate type is the exact rationals and
  numpy fmod is modelled by qmod (the result of which has the sign of the
  divisor, as in numpy, for a positive divisor).
* numpy arrays of shape (N, 3) are modelled as lists of triples, byte
  strings as lists of naturals below 256.  np.unique with axis equal to 0
  sorts the distinct rows; it is modelled by sdedup, an insertion based
  sort-and-deduplicate over an explicit strict linear order on rows.
* Python exceptions are modelled by an Except result; the PyErr
  constructors record which exception class the interpreter raises.
-/

/-- The exception outcomes the mesh module can produce.  meshDecodeError
carries the two numbers interpolated into the message of the raised
MeshDecodeError: the value printed after Minimum Bytes and the value
printed after Actual Bytes. -/
inductive PyErr where
  | meshDecodeError (minBytes actualBytes : Nat)
  | valueError
  | structError
  | nameError
  | indexError
  deriving DecidableEq, Repr

/-- A row of a 3-wide numpy array. -/
abbrev Vec3 (α : Type) : Type := α × α × α

/-- Apply a scalar function to each entry of a row, as a vectorized numpy
operation does. -/
def map3 {α β : Type} (f : α → β) (v : Vec3 α) : Vec3 β :=
  (f v.1, f v.2.1, f v.2.2)

/-- The entries of a row, in order. -/
def vecToList {α : Type} (v : Vec3 α) : List α :=
  [v.1, v.2.1, v.2.2]

/-- Row-major flattening of a 3-wide array, as numpy flatten does. -/
def flat3 {α : Type} : List (Vec3 α) → List α
  | [] => []
  | v :: rest => v.1 :: v.2.1 :: v.2.2 :: flat3 rest

/-- Regroup a flat list into rows of three, as a reshape to (n, 3) does.
It is only applied to lists whose length is a multiple of three. -/
def group3 {α : Type} : List α → List (Vec3 α)
  | a :: b :: c :: rest => (a, b, c) :: group3 rest
  | _ => []

/-- The kinds of encoding tags the module assigns. -/
inductive EncKind where
  | precomputed
  | draco
  deriving DecidableEq, Repr

/-- The value held in the encoding_type attribute of a mesh.  Python stores
None, a string, or (after concatenate of heterogeneous inputs) a list of
the distinct values.  Nested lists make Python set() raise and are not
modelled. -/
inductive EncVal where
  | unset
  | tag (k : EncKind)
  | multi (ks : List (Option EncKind))
  deriving DecidableEq, Repr

/-- The Mesh entity of mesh.py: vertex rows, face rows (vertex ids),
normal rows, and the metadata that equality never inspects.  The
coordinate type is Nat (float32 bit patterns) for the codec and equality
claims and the rationals for the chunk-boundary arithmetic claims. -/
structure Mesh (α : Type) where
  vertices : List (Vec3 α)
  faces : List (Vec3 Nat)
  normals : List (Vec3 α)
  segid : Option Int := none
  encodingType : EncVal := .unset

/-- Mesh.empty(): a mesh is empty when the vertex array or the face array
has no elements. -/
def Mesh.isEmptyMesh {α : Type} (m : Mesh α) : Bool :=
  m.vertices.isEmpty || m.faces.isEmpty

/-- The invariant of the data model: every vertex id stored in a face is a
valid index into the vertex array.  The reference code never checks it;
operations that index vertices by face raise IndexError when it fails. -/
def facesValid {α : Type} (m : Mesh α) : Prop :=
  ∀ f ∈ m.faces, f.1 < m.vertices.length ∧ f.2.1 < m.vertices.length ∧
    f.2.2 < m.vertices.length

instance {α : Type} (m : Mesh α) : Decidable (facesValid m) := by
  unfold facesValid; infer_instance

/-- 2^32, the number of 32-bit patterns. -/
def U32 : Nat := 4294967296

/-- The four little-endian bytes of a 32-bit word, as numpy tobytes
produces for one uint32 or float32 element. -/
def u32b (n : Nat) : List Nat :=
  [n % 256, n / 256 % 256, n / 65536 % 256, n / 16777216 % 256]

/-- The little-endian byte string of a list of 32-bit words. -/
def bytesOfWords : List Nat → List Nat
  | [] => []
  | w :: ws => u32b w ++ bytesOfWords ws

/-- Read a byte string back as 32-bit little-endian words, as np.frombuffer
with a 4-byte dtype does.  A trailing group of fewer than four bytes is
dropped; the callers below only reach this function after the
multiple-of-four check that frombuffer itself performs. -/
def toWords : List Nat → List Nat
  | b0 :: b1 :: b2 :: b3 :: rest =>
      (b0 + 256 * b1 + 65536 * b2 + 16777216 * b3) :: toWords rest
  | _ => []

/-- Mesh.to_precomputed: the vertex count as one uint32, then the raw
vertex buffer, then the raw face buffer, little endian.  np.uint32 of the
vertex count wraps modulo 2^32. -/
def toPrecomputed (m : Mesh Nat) : List Nat :=
  u32b (m.vertices.length % U32) ++ bytesOfWords (flat3 m.vertices) ++
    bytesOfWords (flat3 m.faces)

/-- The little-endian 32-bit word held by four bytes, as struct.unpack
with format =I reads it. -/
def leWord (b0 b1 b2 b3 : Nat) : Nat :=
  b0 + 256 * b1 + 65536 * b2 + 16777216 * b3

/-- Mesh.from_precomputed, line for line:
* struct.unpack of the first four bytes raises struct.error when fewer
  than four bytes are present (that exception is not caught);
* np.frombuffer for the vertices raises ValueError when fewer than 12*Nv
  bytes follow the header, and np.frombuffer for the faces raises
  ValueError when the remaining byte count is not a multiple of four; both
  are caught and re-raised as MeshDecodeError whose message interpolates
  4 + 4*Nv as Minimum Bytes and the buffer length as Actual Bytes;
* the reshape of the face array to (size // 3, 3) sits outside the try
  block, so a face word count that is not a multiple of three raises a
  plain ValueError;
* otherwise the decoded mesh carries no normals and the precomputed tag. -/
def fromPrecomputed (b : List Nat) : Except PyErr (Mesh Nat) :=
  match b with
  | b0 :: b1 :: b2 :: b3 :: rest =>
      if rest.length < 12 * leWord b0 b1 b2 b3 then
        .error (.meshDecodeError (4 + 4 * leWord b0 b1 b2 b3) (rest.length + 4))
      else if (rest.length - 12 * leWord b0 b1 b2 b3) % 4 ≠ 0 then
        .error (.meshDecodeError (4 + 4 * leWord b0 b1 b2 b3) (rest.length + 4))
      else if (toWords (rest.drop (12 * leWord b0 b1 b2 b3))).length % 3 ≠ 0 then
        .error .valueError
      else
        .ok { vertices := group3 (toWords (rest.take (12 * leWord b0 b1 b2 b3))),
              faces := group3 (toWords (rest.drop (12 * leWord b0 b1 b2 b3))),
              normals := [],
              segid := none,
              encodingType := .tag .precomputed }
  | _ => .error .structError

/-- One logical line of a Wavefront OBJ text, classified the way the
branches of Mesh.from_obj classify it: by its leading characters after
strip().  A vert line carries the three formatted coordinates (as float32
patterns; the textual 5-decimal rendering is immaterial below because the
parser never reaches the numeric payload), a face line the three 1-based
vertex ids written by Mesh.to_obj. -/
inductive ObjLine where
  | blank
  | comment
  | vert (v : Vec3 Nat)
  | vnorm (v : Vec3 Nat)
  | vtex
  | face (f : Vec3 Nat)
  | other
  deriving DecidableEq

/-- Mesh.to_obj: one v line per vertex, then one f line per face with ids
shifted to 1-based, joined by newlines with a trailing newline (the
trailing newline makes the final split element an empty line). -/
def toObjLines (m : Mesh Nat) : List ObjLine :=
  m.vertices.map ObjLine.vert ++
    m.faces.map (fun f => ObjLine.face (map3 (· + 1) f)) ++ [ObjLine.blank]

/-- Mesh.from_obj: blank lines, comment lines and vt lines are skipped;
every f line, v line and vn line evaluates re.match, but the module
mesh.py never imports re, so reaching any of those branches raises
NameError; unrecognized lines fall through every branch and are ignored.
A text with no such line yields the empty mesh (the face array minus one
on an empty uint32 array is still empty). -/
def fromObjLines : List ObjLine → Except PyErr (Mesh Nat)
  | [] => .ok { vertices := [], faces := [], normals := [] }
  | l :: rest =>
      match l with
      | .blank => fromObjLines rest
      | .comment => fromObjLines rest
      | .vtex => fromObjLines rest
      | .other => fromObjLines rest
      | .vert _ => .error .nameError
      | .vnorm _ => .error .nameError
      | .face _ => .error .nameError

/-- The encoding_type attached by Mesh.concatenate: Python takes
list(set(...)) of the inputs and unwraps a singleton.  set order is
modelled as order of first occurrence.  Inputs are projected to
None-or-string form; a multi tag among the inputs (unhashable list in
Python) is outside the model. -/
def encProj : EncVal → Option EncKind
  | .unset => none
  | .tag k => some k
  | .multi _ => none

def concatEnc (es : List EncVal) : EncVal :=
  match (es.map encProj).dedup with
  | [none] => .unset
  | [some k] => .tag k
  | l => .multi l

/-- The face blocks of Mesh.concatenate: the faces of each input shifted
by the running vertex count of the preceding inputs.  The running counts
are held in a uint32 array and the shift is uint32 addition, so both wrap
modulo 2^32. -/
def shiftedFacesFrom {α : Type} (acc : Nat) : List (Mesh α) → List (List (Vec3 Nat))
  | [] => []
  | m :: rest =>
      m.faces.map (map3 (fun v => (v + acc % U32) % U32)) ::
        shiftedFacesFrom (acc + m.vertices.length) rest

/-- Mesh.concatenate: vertex, face and normal arrays appended in input
order with the face shift above; np.concatenate of an empty list of
arrays raises ValueError; the result carries no segment id. -/
def Mesh.concatenate {α : Type} (ms : List (Mesh α)) : Except PyErr (Mesh α) :=
  if ms.isEmpty then .error .valueError
  else
    .ok { vertices := (ms.map Mesh.vertices).flatten,
          faces := (shiftedFacesFrom 0 ms).flatten,
          normals := (ms.map Mesh.normals).flatten,
          segid := none,
          encodingType := concatEnc (ms.map Mesh.encodingType) }

/-- The sum of the vertex counts of the first i meshes: the offset applied
to the faces of mesh number i by Mesh.concatenate (before the uint32
wrap). -/
def vertOffset {α : Type} (ms : List (Mesh α)) (i : Nat) : Nat :=
  ((ms.take i).map (fun m => m.vertices.length)).sum

/-- Strict lexicographic comparison on a pair, given a strict comparison
on the second component. -/
def plex {α β : Type} [LinearOrder α] (lt : β → β → Prop) (p q : α × β) : Prop :=
  p.1 < q.1 ∨ (p.1 = q.1 ∧ lt p.2 q.2)

instance {α β : Type} [LinearOrder α] {lt : β → β → Prop} [DecidableRel lt] :
    DecidableRel (@plex α β _ lt) := by
  intro p q; unfold plex; infer_instance

/-- Row order used by the model of np.unique with axis 0 on 3-wide
arrays.  np.unique sorts the rows by their byte strings; any fixed strict
total order yields the same sorted-distinct-rows semantics, and the
claims below do not depend on which one is used, so lexicographic order
on the entries is taken. -/
def lt3 {α : Type} [LinearOrder α] : Vec3 α → Vec3 α → Prop :=
  plex (plex (· < ·))

instance {α : Type} [LinearOrder α] : DecidableRel (@lt3 α _) := by
  unfold lt3; infer_instance

/-- A row of the 4-wide array built by deduplicate_chunk_boundaries:
x, y, z and the synthetic fourth coordinate. -/
abbrev Vec4 : Type := ℚ × Vec3 ℚ

/-- Row order for the 4-wide uniqueness pass. -/
def lt4 : Vec4 → Vec4 → Prop := plex lt3

instance : DecidableRel lt4 := by unfold lt4; infer_instance

/-- Insert an element into a sorted duplicate-free list, keeping it sorted
and duplicate-free. -/
def insRow {β : Type} (lt : β → β → Prop) [DecidableRel lt] [DecidableEq β]
    (x : β) : List β → List β
  | [] => [x]
  | y :: ys =>
      if lt x y then x :: y :: ys
      else if x = y then y :: ys
      else y :: insRow lt x ys

/-- The model of np.unique on rows: the distinct elements of the input in
ascending order of the given row order. -/
def sdedup {β : Type} (lt : β → β → Prop) [DecidableRel lt] [DecidableEq β]
    (l : List β) : List β :=
  l.foldr (insRow lt) []

/-- The index of the first occurrence of an element in a list (0 when
absent past the end); composed with sdedup it models the return_inverse
output of np.unique. -/
def findIdx0 {β : Type} [DecidableEq β] (x : β) : List β → Nat
  | [] => 0
  | y :: ys => if x = y then 0 else findIdx0 x ys + 1

/-- The inverse-index map of the uniqueness pass of Mesh.consolidate: the
position, in the sorted distinct vertex list, of the vertex row at a
given original index.  Out-of-range original indices (which make numpy
raise before this map is consulted) return 0. -/
def remapIdx {β : Type} [DecidableEq β] (verts u : List β) (j : Nat) : Nat :=
  match verts.get? j with
  | some row => findIdx0 row u
  | none => 0

/-- Mesh.consolidate: an empty mesh maps to the bare empty mesh (no
segment id, no encoding tag); otherwise the vertex rows are deduplicated
and sorted by np.unique, every face id is remapped through the inverse
index, the remapped face rows are themselves deduplicated and sorted, the
normals are dropped, and the segment id and encoding metadata are kept.
A face id outside the vertex array makes the vectorized remap raise
IndexError. -/
def Mesh.consolidate {α : Type} [LinearOrder α] (m : Mesh α) :
    Except PyErr (Mesh α) :=
  if m.isEmptyMesh then
    .ok { vertices := [], faces := [], normals := [] }
  else if facesValid m then
    .ok { vertices := sdedup lt3 m.vertices,
          faces := sdedup lt3
            (m.faces.map (map3 (remapIdx m.vertices (sdedup lt3 m.vertices)))),
          normals := [],
          segid := m.segid,
          encodingType := m.encodingType }
  else .error .indexError

/-- Whether a 32-bit pattern encodes an IEEE 754 single precision NaN:
exponent field all ones and nonzero mantissa. -/
def isNaN32 (p : Nat) : Bool :=
  p / 8388608 % 256 == 255 && p % 8388608 != 0

/-- Whether a 32-bit pattern encodes positive or negative zero. -/
def isZero32 (p : Nat) : Bool :=
  p % 2147483648 == 0

/-- IEEE 754 equality of two float32 values given as bit patterns, the
comparison numpy performs elementwise for a float32 array: NaN compares
unequal to everything, the two zeros compare equal, and otherwise
equality of values is equality of patterns. -/
def feq32 (a b : Nat) : Bool :=
  !isNaN32 a && !isNaN32 b && (a == b || (isZero32 a && isZero32 b))

/-- Elementwise float32 comparison of one row. -/
def vfeq (v w : Vec3 Nat) : Bool :=
  feq32 v.1 w.1 && feq32 v.2.1 w.2.1 && feq32 v.2.2 w.2.2

/-- np.all of the elementwise float32 comparison of two arrays, including
the numpy convention that arrays of different shapes compare False. -/
def listFeq : List (Vec3 Nat) → List (Vec3 Nat) → Bool
  | [], [] => true
  | x :: xs, y :: ys => vfeq x y && listFeq xs ys
  | _, _ => false

/-- Vertex coordinates of a mesh contain no NaN pattern. -/
def noNaNVerts (m : Mesh Nat) : Prop :=
  ∀ v ∈ m.vertices, isNaN32 v.1 = false ∧ isNaN32 v.2.1 = false ∧
    isNaN32 v.2.2 = false

instance (m : Mesh Nat) : Decidable (noNaNVerts m) := by
  unfold noNaNVerts; infer_instance

/-- Normal coordinates of a mesh contain no NaN pattern. -/
def noNaNNormals (m : Mesh Nat) : Prop :=
  ∀ v ∈ m.normals, isNaN32 v.1 = false ∧ isNaN32 v.2.1 = false ∧
    isNaN32 v.2.2 = false

instance (m : Mesh Nat) : Decidable (noNaNNormals m) := by
  unfold noNaNNormals; infer_instance

/-- The equality test of Mesh (the dunder eq method): False when exactly
one side has normals; otherwise np.all equality of the vertex arrays
(float32 comparison) and of the face arrays (uint32 comparison, which is
exact equality including the shape check), and of the normal arrays when
both sides have normals.  segid, encoding_type and encoding_options are
never read. -/
def meshEq (m1 m2 : Mesh Nat) : Bool :=
  let no1 := m1.normals.isEmpty
  let no2 := m2.normals.isEmpty
  if no1 != no2 then false
  else
    let e := listFeq m1.vertices m2.vertices && m1.faces == m2.faces
    if no1 then e else e && listFeq m1.normals m2.normals

/-- numpy fmod with the sign convention of np.mod: for divisor b the
result is a minus b times the floor of a over b, which for positive b
lies in the interval from 0 (inclusive) to b (exclusive). -/
def qmod (a b : ℚ) : ℚ := a - b * ⌊a / b⌋

/-- dist_to_chunk of mesh.py on one coordinate: the minimum of the
distance up to and down to the nearest multiple of the chunk size. -/
def dist_to_chunk (v chunk_size : ℚ) : ℚ :=
  min (qmod v chunk_size) (chunk_size - qmod v chunk_size)

/-- is_draco_chunk_aligned of mesh.py on one vertex row: on some axis the
boundary distance of the vertex is strictly below the boundary distance
of the vertex shifted down by the grid size, strictly below that of the
vertex shifted up by the grid size, and strictly below the grid size. -/
def is_draco_chunk_aligned (v : Vec3 ℚ) (chunk_size grid : ℚ) : Bool :=
  let axis := fun x : ℚ =>
    decide (dist_to_chunk x chunk_size < dist_to_chunk (x - grid) chunk_size) &&
    decide (dist_to_chunk x chunk_size < dist_to_chunk (x + grid) chunk_size) &&
    decide (dist_to_chunk x chunk_size < grid)
  axis v.1 || axis v.2.1 || axis v.2.2

/-- The standard alignment test of deduplicate_chunk_boundaries: some
coordinate of the row is an exact multiple of the chunk size. -/
def isStdChunkAligned (v : Vec3 ℚ) (chunk_size : ℚ) : Bool :=
  decide (qmod v.1 chunk_size = 0) || decide (qmod v.2.1 chunk_size = 0) ||
    decide (qmod v.2.2 chunk_size = 0)

/-- The alignment test selected by the is_draco flag of
deduplicate_chunk_boundaries. -/
def isChunkAligned (isDraco : Bool) (v : Vec3 ℚ) (chunk_size grid : ℚ) : Bool :=
  if isDraco then is_draco_chunk_aligned v chunk_size grid
  else isStdChunkAligned v chunk_size

/-- The zero row used as the (never consulted in-range) default of list
indexing. -/
def z3 : Vec3 ℚ := (0, 0, 0)

def z4 : Vec4 := (0, z3)

/-- The merge decision of deduplicate_chunk_boundaries for the vertex at
one index: the row is chunk aligned and its exact coordinate triple
occurs exactly twice in the full vertex array (the counts output of
np.unique). -/
def doMergeAt (m : Mesh ℚ) (chunk_size grid : ℚ) (isDraco : Bool) (i : Nat) : Bool :=
  let v := m.vertices.getD i z3
  isChunkAligned isDraco v chunk_size grid &&
    m.vertices.countP (fun w => w = v) == 2

/-- The 4-wide array new_vertices of deduplicate_chunk_boundaries: each
vertex row extended by a synthetic fourth coordinate holding the own
index of the vertex, overwritten with the sentinel minus one exactly on
the rows selected for merging.  (numpy holds these rows as float64, which
represents both the indices and the coordinates exactly here.) -/
def newVertices (m : Mesh ℚ) (chunk_size grid : ℚ) (isDraco : Bool) : List Vec4 :=
  (List.range m.vertices.length).map (fun i =>
    let v := m.vertices.getD i z3
    (v.1, v.2.1, v.2.2, if doMergeAt m chunk_size grid isDraco i then -1 else (i : ℚ)))

/-- The flat face index list, row major, as faces.flatten() produces. -/
def flatFaces (fs : List (Vec3 Nat)) : List Nat := flat3 fs

/-- The gathered 4-wide rows new_vertices[faces]: one row per face slot,
in flattened face order. -/
def gatherRows (m : Mesh ℚ) (chunk_size grid : ℚ) (isDraco : Bool) : List Vec4 :=
  (flatFaces m.faces).map (fun j => (newVertices m chunk_size grid isDraco).getD j z4)

/-- The first three entries of a 4-wide row. -/
def v4xyz (r : Vec4) : Vec3 ℚ := (r.1, r.2.1, r.2.2.1)

/-- Mesh.deduplicate_chunk_boundaries: build the synthetic 4-wide rows,
gather them through the flattened face list (numpy fancy indexing raises
IndexError on an out-of-range face id), take the sorted distinct rows,
reindex the faces into that list via the return_inverse output of
np.unique, regroup the flat face list into triples, drop the synthetic
column, and keep segment id and encoding metadata.  Normals are not
carried over. -/
def Mesh.dedupChunkBoundaries (m : Mesh ℚ) (chunk_size : ℚ) (isDraco : Bool)
    (grid : ℚ) : Except PyErr (Mesh ℚ) :=
  if facesValid m then
    .ok { vertices := (sdedup lt4 (gatherRows m chunk_size grid isDraco)).map v4xyz,
          faces := group3 ((gatherRows m chunk_size grid isDraco).map
            (fun r => findIdx0 r (sdedup lt4 (gatherRows m chunk_size grid isDraco)))),
          normals := [],
          segid := m.segid,
          encodingType := m.encodingType }
  else .error .indexError

/-- The argument passed to np.array by the Mesh constructor: a flat
python sequence of scalars or a sequence of row sequences.  Scalar values
are carried as exact rationals; the dtype cast of the values is recorded
in the dtype tag of the resulting array (the rounding of the cast is not
itself in question in any claim). -/
inductive NpIn where
  | flat (xs : List ℚ)
  | nested (rows : List (List ℚ))

/-- The dtypes the Mesh constructor requests. -/
inductive NpDType where
  | float32
  | uint32
  deriving DecidableEq

/-- The payload of a one or two dimensional numpy array. -/
inductive NpData where
  | one (xs : List ℚ)
  | two (rows : List (List ℚ))

/-- A numpy array as the Mesh constructor stores it: a dtype and a one or
two dimensional payload.  np.array preserves the dimensionality of its
input; it never reshapes. -/
structure NpArr where
  dtype : NpDType
  data : NpData

/-- np.array(x, dtype=dt): cast to the requested dtype, shape taken from
the input. -/
def npArray (x : NpIn) (dt : NpDType) : NpArr :=
  { dtype := dt,
    data := match x with
            | .flat xs => .one xs
            | .nested rows => .two rows }

/-- The three buffers the Mesh constructor produces. -/
structure RawMesh where
  vertices : NpArr
  faces : NpArr
  normals : NpArr

/-- The Mesh constructor (the dunder init method): vertices through
np.array with dtype float32, faces through np.array with dtype uint32,
and for absent normals the empty float32 array reshaped to (0, 3). -/
def meshCtor (vin fin : NpIn) (nin : Option NpIn) : RawMesh :=
  { vertices := npArray vin .float32,
    faces := npArray fin .uint32,
    normals := match nin with
               | none => { dtype := .float32, data := .two [] }
               | some n => npArray n .float32 }

/-- The construction Mesh.consolidate performs for an empty input mesh at
line 149 of mesh.py: Mesh([], [], normals=None). -/
def consolidateEmptyCtor : RawMesh :=
  meshCtor (.flat []) (.flat []) none

/-- A 3-wide array of the given dtype: two dimensional with every row of
length three. -/
def isThreeWide (a : NpArr) (dt : NpDType) : Prop :=
  a.dtype = dt ∧ ∃ rows, a.data = .two rows ∧ ∀ r ∈ rows, r.length = 3

/-- The coordinate of a row selected by an axis index. -/
def vecNth {α : Type} (v : Vec3 α) : Fin 3 → α
  | 0 => v.1
  | 1 => v.2.1
  | 2 => v.2.2

/-- The default mesh used by positional list lookups in statements. -/
def mdefault {α : Type} : Mesh α :=
  { vertices := [], faces := [], normals := [] }

/-- A concrete mesh with one vertex (the float32 patterns of 1.0, 2.0 and
3.0), one face and no normals, exercised by the OBJ round trip. -/
def objMesh1 : Mesh Nat :=
  { vertices := [(1065353216, 1073741824, 1077936128)],
    faces := [(0, 0, 0)], normals := [] }

/-- The conclusion of the concatenate claim for a list of meshes: the
concatenation succeeds, appends vertices in order, has summed vertex and
face counts, produces exactly the shifted face blocks, and (the offsets
staying below 2^32) every shifted face id of block i stays inside the
vertex range of input i. -/
def C4Post {α : Type} (ms : List (Mesh α)) : Prop :=
  ∃ r, Mesh.concatenate ms = .ok r ∧
    r.vertices = (ms.map Mesh.vertices).flatten ∧
    r.vertices.length = (ms.map (fun m => m.vertices.length)).sum ∧
    r.faces = (shiftedFacesFrom 0 ms).flatten ∧
    r.faces.length = (ms.map (fun m => m.faces.length)).sum ∧
    ∀ i, i < ms.length → ∀ f ∈ (shiftedFacesFrom 0 ms).getD i [],
      ∀ c ∈ vecToList f,
        vertOffset ms i ≤ c ∧
          c < vertOffset ms i + (ms.getD i mdefault).vertices.length

/-- Concrete meshes exercising concatenate. -/
def c4meshes : List (Mesh Nat) :=
  [{ vertices := [(1, 2, 3), (4, 5, 6)], faces := [(0, 1, 1)], normals := [] },
   { vertices := [(7, 8, 9)], faces := [(0, 0, 0)], normals := [] }]

/-- A mesh whose single face indexes past its single vertex: the face
invariant of the data model fails. -/
def c5bad : Mesh Nat :=
  { vertices := [(0, 0, 0)], faces := [(5, 5, 5)], normals := [] }

/-- A concrete well-formed mesh with one duplicated vertex row, exercised
by consolidate. -/
def c5mesh : Mesh Nat :=
  { vertices := [(4, 5, 6), (1, 2, 3), (4, 5, 6)],
    faces := [(0, 1, 2), (2, 1, 0)], normals := [] }

/-- A mesh whose single vertex coordinate is the canonical float32 NaN
pattern 0x7FC00000. -/
def nanMesh : Mesh Nat :=
  { vertices := [(2143289344, 0, 0)], faces := [(0, 0, 0)], normals := [] }

/-- Two meshes with identical vertices and faces, both carrying normals,
whose normals differ (patterns of 1.0 versus 2.0). -/
def normMeshA : Mesh Nat :=
  { vertices := [(0, 0, 0)], faces := [(0, 0, 0)],
    normals := [(1065353216, 0, 0)] }

def normMeshB : Mesh Nat :=
  { vertices := [(0, 0, 0)], faces := [(0, 0, 0)],
    normals := [(1073741824, 0, 0)] }

/-- A NaN-free mesh exercising reflexivity of the equality test. -/
def nanFreeMesh : Mesh Nat :=
  { vertices := [(1, 2, 3)], faces := [(0, 0, 0)], normals := [],
    segid := some 7, encodingType := .tag .draco }

/-- The conclusion of the merge-decision claim at one vertex index: the
synthetic fourth coordinate of the row holds the sentinel minus one
exactly when some coordinate of the vertex is an integer multiple of the
chunk size and the coordinate triple occurs exactly twice in the vertex
array. -/
def C6Post (m : Mesh ℚ) (cs g : ℚ) (i : Nat) : Prop :=
  ((newVertices m cs g false).getD i z4).2.2.2 = -1 ↔
    ((∃ k : ℤ, (m.vertices.getD i z3).1 = k * cs) ∨
     (∃ k : ℤ, (m.vertices.getD i z3).2.1 = k * cs) ∨
     (∃ k : ℤ, (m.vertices.getD i z3).2.2 = k * cs)) ∧
    m.vertices.countP (fun w => w = m.vertices.getD i z3) = 2

/-- A concrete rational mesh: the first two vertices share the triple
(100, 0, 0), which sits on the boundary of chunks of size 100. -/
def c6mesh : Mesh ℚ :=
  { vertices := [(100, 0, 0), (100, 0, 0), (7, 8, 9)],
    faces := [(0, 1, 2)], normals := [] }

/-- The conclusion of the chunk-boundary deduplication result claim: the
call succeeds, the vertex list of the result is exactly the sorted
distinct list of the 4-wide rows gathered through the flattened faces
(with the synthetic column dropped), membership in that list is exactly
being a row referenced by some face slot, the list is duplicate free and
sorted, and the row of an unreferenced vertex whose triple occurs once is
absent from it. -/
def C10Post (m : Mesh ℚ) (cs : ℚ) (isD : Bool) (g : ℚ) : Prop :=
  ∃ r, m.dedupChunkBoundaries cs isD g = .ok r ∧
    r.vertices = (sdedup lt4 (gatherRows m cs g isD)).map v4xyz ∧
    (∀ q, q ∈ sdedup lt4 (gatherRows m cs g isD) ↔
      ∃ j ∈ flatFaces m.faces, q = (newVertices m cs g isD).getD j z4) ∧
    (sdedup lt4 (gatherRows m cs g isD)).Nodup ∧
    (sdedup lt4 (gatherRows m cs g isD)).Pairwise lt4 ∧
    ∀ i, i < m.vertices.length →
      m.vertices.countP (fun w => w = m.vertices.getD i z3) = 1 →
      i ∉ flatFaces m.faces →
      (newVertices m cs g isD).getD i z4 ∉ sdedup lt4 (gatherRows m cs g isD)

/-- A rational mesh with an out-of-range face id. -/
def c10bad : Mesh ℚ :=
  { vertices := [(0, 0, 0)], faces := [(5, 5, 5)], normals := [] }

/-- A concrete well-formed rational mesh exercised by the deduplication
pass; vertex 2 is referenced by no face. -/
def c10mesh : Mesh ℚ :=
  { vertices := [(0, 0, 0), (100, 0, 0), (44, 44, 44)],
    faces := [(0, 1, 1)], normals := [] }

/-- The conclusion of the construction claim: the constructor always
records the float32 and uint32 dtypes, and an input that is a sequence of
3-element rows yields a 3-wide array of the requested dtype. -/
def C9Post (vin fin : NpIn) (nin : Option NpIn) : Prop :=
  (meshCtor vin fin nin).vertices.dtype = .float32 ∧
  (meshCtor vin fin nin).faces.dtype = .uint32 ∧
  (∀ rows, vin = .nested rows → (∀ r ∈ rows, r.length = 3) →
    isThreeWide (meshCtor vin fin nin).vertices .float32) ∧
  (∀ rows, fin = .nested rows → (∀ r ∈ rows, r.length = 3) →
    isThreeWide (meshCtor vin fin nin).faces .uint32)

/-- Concrete 3-wide constructor inputs. -/
def c9vin : NpIn := .nested [[1, 2, 3]]

def c9fin : NpIn := .nested [[0, 0, 0]]

theorem length_bytesOfWords (ws : List Nat) :
    (bytesOfWords ws).length = 4 * ws.length := by
  induction ws with
  | nil => rfl
  | cons w ws ih => simp [bytesOfWords, u32b, ih]; omega

theorem length_flat3 {α : Type} (l : List (Vec3 α)) :
    (flat3 l).length = 3 * l.length := by
  induction l with
  | nil => rfl
  | cons v l ih => simp [flat3, ih]; omega

theorem take_len_append {α : Type} (l1 l2 : List α) :
    (l1 ++ l2).take l1.length = l1 := by
  induction l1 with
  | nil => rfl
  | cons a l1 ih => simp [ih]

theorem drop_len_append {α : Type} (l1 l2 : List α) :
    (l1 ++ l2).drop l1.length = l2 := by
  induction l1 with
  | nil => rfl
  | cons a l1 ih => simp [ih]

theorem leWord_u32b (n : Nat) (h : n < U32) :
    leWord (n % 256) (n / 256 % 256) (n / 65536 % 256) (n / 16777216 % 256) = n := by
  unfold U32 at h
  unfold leWord
  omega

theorem toWords_bytesOfWords (ws : List Nat) (h : ∀ w ∈ ws, w < U32) :
    toWords (bytesOfWords ws) = ws := by
  induction ws with
  | nil => rfl
  | cons w ws ih =>
      have hw : w < U32 := h w (by simp)
      show toWords (u32b w ++ bytesOfWords ws) = w :: ws
      unfold u32b
      show (w % 256 + 256 * (w / 256 % 256) + 65536 * (w / 65536 % 256) +
        16777216 * (w / 16777216 % 256)) :: toWords (bytesOfWords ws) = w :: ws
      rw [ih (fun x hx => h x (by simp [hx]))]
      unfold U32 at hw
      congr 1
      omega

theorem group3_flat3 {α : Type} (l : List (Vec3 α)) : group3 (flat3 l) = l := by
  induction l with
  | nil => rfl
  | cons v l ih => show (v.1, v.2.1, v.2.2) :: group3 (flat3 l) = v :: l; rw [ih]

theorem mem_flat3 {α : Type} {x : α} {l : List (Vec3 α)} :
    x ∈ flat3 l ↔ ∃ v ∈ l, x = v.1 ∨ x = v.2.1 ∨ x = v.2.2 := by
  induction l with
  | nil => simp [flat3]
  | cons v l ih =>
      simp only [flat3, List.mem_cons, ih]
      constructor
      · rintro (h | h | h | ⟨w, hw, hx⟩)
        · exact ⟨v, Or.inl rfl, Or.inl h⟩
        · exact ⟨v, Or.inl rfl, Or.inr (Or.inl h)⟩
        · exact ⟨v, Or.inl rfl, Or.inr (Or.inr h)⟩
        · exact ⟨w, Or.inr hw, hx⟩
      · rintro ⟨w, hw | hw, hx⟩
        · subst hw; tauto
        · exact Or.inr (Or.inr (Or.inr ⟨w, hw, hx⟩))

theorem fromPrecomputed_cons (b0 b1 b2 b3 : Nat) (rest : List Nat) :
    fromPrecomputed (b0 :: b1 :: b2 :: b3 :: rest) =
      if rest.length < 12 * leWord b0 b1 b2 b3 then
        .error (.meshDecodeError (4 + 4 * leWord b0 b1 b2 b3) (rest.length + 4))
      else if (rest.length - 12 * leWord b0 b1 b2 b3) % 4 ≠ 0 then
        .error (.meshDecodeError (4 + 4 * leWord b0 b1 b2 b3) (rest.length + 4))
      else if (toWords (rest.drop (12 * leWord b0 b1 b2 b3))).length % 3 ≠ 0 then
        .error .valueError
      else
        .ok { vertices := group3 (toWords (rest.take (12 * leWord b0 b1 b2 b3))),
              faces := group3 (toWords (rest.drop (12 * leWord b0 b1 b2 b3))),
              normals := [],
              segid := none,
              encodingType := .tag .precomputed } := rfl

/-- C2 (code bug evidence): on the ten byte buffer declaring one vertex,
from_precomputed raises MeshDecodeError whose message reports 8 as the
minimum byte count and 10 as the actual byte count, although the buffer
really fails for being shorter than 4 + 12 bytes, so the reported minimum
is not the minimum required length; and on an eight byte buffer declaring
zero vertices followed by one stray face word, the face reshape failure
escapes as a plain ValueError rather than the claimed MeshDecodeError. -/
theorem c2_decode_error_misreport :
    fromPrecomputed [1, 0, 0, 0, 9, 9, 9, 9, 9, 9] =
      .error (.meshDecodeError 8 10) ∧
    10 < 4 + 12 * 1 ∧ ¬(8 = 4 + 12 * 1) ∧
    fromPrecomputed [0, 0, 0, 0, 1, 0, 0, 0] = .error .valueError :=
  ⟨rfl, by norm_num, by norm_num, rfl⟩

/-- C3: decoding the precomputed encoding of a non-empty mesh with valid
face ids (and with the 32-bit-pattern bounds every genuine float32/uint32
array satisfies) returns exactly the vertices and faces of the input,
normals excluded, tagged precomputed. -/
theorem c3_precomputed_roundtrip (m : Mesh Nat)
    (hne : m.isEmptyMesh = false)
    (hval : facesValid m)
    (hwf : ∀ v ∈ m.vertices, v.1 < U32 ∧ v.2.1 < U32 ∧ v.2.2 < U32)
    (hnv : m.vertices.length < U32) :
    fromPrecomputed (toPrecomputed m) =
      .ok { vertices := m.vertices, faces := m.faces, normals := [],
            segid := none, encodingType := .tag .precomputed } := by
  have hvb : ∀ w ∈ flat3 m.vertices, w < U32 := by
    intro w hw
    rcases mem_flat3.mp hw with ⟨v, hv, h1 | h1 | h1⟩ <;>
      { subst h1; rcases hwf v hv with ⟨a, b, c⟩; assumption }
  have hfb : ∀ w ∈ flat3 m.faces, w < U32 := by
    intro w hw
    rcases mem_flat3.mp hw with ⟨f, hf, h1 | h1 | h1⟩ <;>
      { subst h1; rcases hval f hf with ⟨a, b, c⟩; omega }
  have hmod : m.vertices.length % U32 = m.vertices.length := Nat.mod_eq_of_lt hnv
  have hVlen : (bytesOfWords (flat3 m.vertices)).length = 12 * m.vertices.length := by
    rw [length_bytesOfWords, length_flat3]; omega
  have hFlen : (bytesOfWords (flat3 m.faces)).length = 12 * m.faces.length := by
    rw [length_bytesOfWords, length_flat3]; omega
  show fromPrecomputed (u32b (m.vertices.length % U32) ++
      bytesOfWords (flat3 m.vertices) ++ bytesOfWords (flat3 m.faces)) = _
  rw [hmod]
  rw [List.append_assoc]
  set n := m.vertices.length with hn
  set VB := bytesOfWords (flat3 m.vertices) with hVBdef
  set FB := bytesOfWords (flat3 m.faces) with hFBdef
  show fromPrecomputed ((n % 256) :: (n / 256 % 256) :: (n / 65536 % 256) ::
      (n / 16777216 % 256) :: (VB ++ FB)) = _
  rw [fromPrecomputed_cons]
  rw [leWord_u32b n hnv]
  have hrestlen : (VB ++ FB).length = 12 * n + 12 * m.faces.length := by
    rw [List.length_append, hVlen, hFlen]
  rw [if_neg (by omega)]
  rw [if_neg (by
    rw [hrestlen]
    omega)]
  have htake : (VB ++ FB).take (12 * n) = VB := by
    rw [show 12 * n = VB.length from hVlen.symm, take_len_append]
  have hdrop : (VB ++ FB).drop (12 * n) = FB := by
    rw [show 12 * n = VB.length from hVlen.symm, drop_len_append]
  rw [htake, hdrop, hVBdef, hFBdef,
    toWords_bytesOfWords _ hvb, toWords_bytesOfWords _ hfb]
  rw [if_neg (by rw [length_flat3]; omega)]
  rw [group3_flat3, group3_flat3]

/-- Witness for C3 at the one-vertex one-face mesh of the spec example. -/
theorem c3_precomputed_roundtrip_witness :
    objMesh1.isEmptyMesh = false ∧ facesValid objMesh1 ∧
    (∀ v ∈ objMesh1.vertices, v.1 < U32 ∧ v.2.1 < U32 ∧ v.2.2 < U32) ∧
    objMesh1.vertices.length < U32 ∧
    fromPrecomputed (toPrecomputed objMesh1) =
      .ok { vertices := objMesh1.vertices, faces := objMesh1.faces,
            normals := [], segid := none,
            encodingType := .tag .precomputed } :=
  ⟨rfl, by decide, by decide, by decide,
    c3_precomputed_roundtrip objMesh1 rfl (by decide) (by decide) (by decide)⟩

/-- C1 (code bug evidence): the OBJ writer emits a v line for every
vertex, and the OBJ reader raises NameError on the first v, vn or f line
it meets, because mesh.py never imports re; so the OBJ round trip of the
normal-free mesh objMesh1 raises instead of reproducing the mesh. -/
theorem c1_obj_roundtrip_raises :
    objMesh1.normals = [] ∧
    fromObjLines (toObjLines objMesh1) = .error .nameError ∧
    ¬∃ m, fromObjLines (toObjLines objMesh1) = .ok m := by
  refine ⟨rfl, rfl, ?_⟩
  rintro ⟨m, h⟩
  rw [show fromObjLines (toObjLines objMesh1) = Except.error PyErr.nameError from rfl] at h
  simp at h

theorem len_flatten_map {α β : Type} (f : Mesh α → List β) (ms : List (Mesh α)) :
    ((ms.map f).flatten).length = (ms.map (fun m => (f m).length)).sum := by
  induction ms with
  | nil => rfl
  | cons m ms ih => simp [List.flatten, ih]

theorem length_shifted_flatten {α : Type} (ms : List (Mesh α)) : ∀ acc : Nat,
    ((shiftedFacesFrom acc ms).flatten).length =
      (ms.map (fun m => m.faces.length)).sum := by
  induction ms with
  | nil => intro acc; rfl
  | cons m ms ih =>
      intro acc
      simp [shiftedFacesFrom, List.flatten, ih]

theorem vertOffset_zero {α : Type} (ms : List (Mesh α)) : vertOffset ms 0 = 0 := rfl

theorem vertOffset_cons_succ {α : Type} (m : Mesh α) (ms : List (Mesh α)) (i : Nat) :
    vertOffset (m :: ms) (i + 1) = m.vertices.length + vertOffset ms i := by
  simp [vertOffset]

theorem getD_mem {β : Type} (l : List β) (d : β) :
    ∀ i, i < l.length → l.getD i d ∈ l := by
  induction l with
  | nil => intro i hi; simp at hi
  | cons a l ih =>
      intro i hi
      cases i with
      | zero => simp
      | succ j =>
          simp only [List.getD_cons_succ, List.mem_cons]
          exact Or.inr (ih j (by simpa using hi))

theorem vertOffset_getD_succ {α : Type} (ms : List (Mesh α)) :
    ∀ i, i < ms.length →
      vertOffset ms (i + 1) =
        vertOffset ms i + (ms.getD i mdefault).vertices.length := by
  induction ms with
  | nil => intro i hi; simp at hi
  | cons m ms ih =>
      intro i hi
      cases i with
      | zero =>
          simp [vertOffset_cons_succ, vertOffset_zero]
      | succ j =>
          rw [vertOffset_cons_succ, ih j (by simpa using hi),
            vertOffset_cons_succ]
          simp [Nat.add_assoc]

theorem vertOffset_mono {α : Type} (ms : List (Mesh α)) :
    ∀ i j, i ≤ j → vertOffset ms i ≤ vertOffset ms j := by
  induction ms with
  | nil => intro i j _; simp [vertOffset]
  | cons m ms ih =>
      intro i j hij
      cases i with
      | zero => simp [vertOffset_zero]
      | succ i0 =>
          cases j with
          | zero => omega
          | succ j0 =>
              rw [vertOffset_cons_succ, vertOffset_cons_succ]
              exact Nat.add_le_add_left (ih i0 j0 (by omega)) _

theorem shiftedFacesFrom_getD {α : Type} (ms : List (Mesh α)) :
    ∀ acc i, i < ms.length →
      (shiftedFacesFrom acc ms).getD i [] =
        (ms.getD i mdefault).faces.map
          (map3 (fun v => (v + (acc + vertOffset ms i) % U32) % U32)) := by
  induction ms with
  | nil => intro acc i hi; simp at hi
  | cons m ms ih =>
      intro acc i hi
      cases i with
      | zero => simp [shiftedFacesFrom, vertOffset_zero]
      | succ j =>
          simp only [shiftedFacesFrom, List.getD_cons_succ, List.getD_cons_succ]
          rw [ih (acc + m.vertices.length) j (by simpa using hi),
            vertOffset_cons_succ]
          have h2 : acc + m.vertices.length + vertOffset ms j =
              acc + (m.vertices.length + vertOffset ms j) := by omega
          rw [h2]

/-- C4 counterexample: concatenating the empty sequence of meshes raises
ValueError (np.concatenate of no arrays) instead of returning a mesh with
zero vertices and faces. -/
theorem c4_concatenate_empty_raises :
    Mesh.concatenate ([] : List (Mesh Nat)) = .error .valueError ∧
    ¬∃ r, Mesh.concatenate ([] : List (Mesh Nat)) = .ok r := by
  refine ⟨rfl, ?_⟩
  rintro ⟨r, h⟩
  rw [show Mesh.concatenate ([] : List (Mesh Nat)) = .error .valueError
    from rfl] at h
  simp at h

/-- C4 (amended to nonempty input sequences): concatenate appends the
vertex arrays in order, sums vertex and face counts, appends the face
blocks shifted by the cumulative vertex counts, and each shifted face id
of block i stays inside the vertex range of input i given valid inputs
whose total vertex count fits in a uint32. -/
theorem c4_concatenate_spec {α : Type} (ms : List (Mesh α)) (hne : ms ≠ [])
    (hval : ∀ m ∈ ms, facesValid m)
    (htot : vertOffset ms ms.length < U32) : C4Post ms := by
  have hemp : ms.isEmpty = false := by
    cases ms with
    | nil => exact absurd rfl hne
    | cons a l => rfl
  refine ⟨{ vertices := (ms.map Mesh.vertices).flatten,
            faces := (shiftedFacesFrom 0 ms).flatten,
            normals := (ms.map Mesh.normals).flatten,
            segid := none,
            encodingType := concatEnc (ms.map Mesh.encodingType) },
    ?_, rfl, ?_, rfl, ?_, ?_⟩
  · simp [Mesh.concatenate, hemp]
  · exact len_flatten_map Mesh.vertices ms
  · exact length_shifted_flatten ms 0
  · intro i hi f hf c hc
    rw [shiftedFacesFrom_getD ms 0 i hi] at hf
    rcases List.mem_map.mp hf with ⟨f0, hf0, rfl⟩
    have hmem : ms.getD i mdefault ∈ ms := getD_mem ms mdefault i hi
    have hvalid := hval _ hmem f0 hf0
    have hoff : vertOffset ms i + (ms.getD i mdefault).vertices.length ≤
        vertOffset ms ms.length := by
      rw [← vertOffset_getD_succ ms i hi]
      exact vertOffset_mono ms (i + 1) ms.length (by omega)
    have hoffsmall : (0 + vertOffset ms i) % U32 = vertOffset ms i := by
      rw [Nat.zero_add]
      exact Nat.mod_eq_of_lt (by omega)
    simp only [map3, vecToList, List.mem_cons, List.not_mem_nil, or_false] at hc
    rcases hc with rfl | rfl | rfl <;>
      { rw [hoffsmall]
        rw [Nat.mod_eq_of_lt (by omega)]
        omega }

/-- Witness for C4 at two concrete meshes. -/
theorem c4_concatenate_spec_witness :
    c4meshes ≠ [] ∧ (∀ m ∈ c4meshes, facesValid m) ∧
    vertOffset c4meshes c4meshes.length < U32 ∧ C4Post c4meshes :=
  ⟨by simp [c4meshes], by decide, by decide,
    c4_concatenate_spec c4meshes (by simp [c4meshes]) (by decide) (by decide)⟩

theorem sdedup_cons {β : Type} (lt : β → β → Prop) [DecidableRel lt]
    [DecidableEq β] (a : β) (l : List β) :
    sdedup lt (a :: l) = insRow lt a (sdedup lt l) := rfl

theorem mem_insRow {β : Type} (lt : β → β → Prop) [DecidableRel lt]
    [DecidableEq β] (x z : β) :
    ∀ l : List β, z ∈ insRow lt x l ↔ z = x ∨ z ∈ l := by
  intro l
  induction l with
  | nil => simp [insRow]
  | cons y ys ih =>
      unfold insRow
      by_cases h1 : lt x y
      · simp [h1, List.mem_cons]
      · by_cases h2 : x = y
        · subst h2
          simp [h1, List.mem_cons]
        · simp only [h1, h2, if_false, List.mem_cons, ih]
          tauto

theorem mem_sdedup {β : Type} (lt : β → β → Prop) [DecidableRel lt]
    [DecidableEq β] (z : β) :
    ∀ l : List β, z ∈ sdedup lt l ↔ z ∈ l := by
  intro l
  induction l with
  | nil => simp [sdedup]
  | cons a l ih =>
      rw [sdedup_cons, mem_insRow, ih, List.mem_cons]

theorem sdedup_ne_nil {β : Type} (lt : β → β → Prop) [DecidableRel lt]
    [DecidableEq β] {l : List β} (h : l ≠ []) : sdedup lt l ≠ [] := by
  cases l with
  | nil => exact absurd rfl h
  | cons a l =>
      intro hcon
      have : a ∈ sdedup lt (a :: l) := (mem_sdedup lt a (a :: l)).mpr (by simp)
      rw [hcon] at this
      simp at this

theorem insRow_of_forall_lt {β : Type} (lt : β → β → Prop) [DecidableRel lt]
    [DecidableEq β] (x : β) {l : List β} (h : ∀ z ∈ l, lt x z) :
    insRow lt x l = x :: l := by
  cases l with
  | nil => rfl
  | cons y ys =>
      unfold insRow
      rw [if_pos (h y (by simp))]

theorem pairwise_insRow {β : Type} (lt : β → β → Prop) [DecidableRel lt]
    [DecidableEq β]
    (htri : ∀ a b, lt a b ∨ a = b ∨ lt b a)
    (htrans : ∀ a b c, lt a b → lt b c → lt a c) (x : β) :
    ∀ l : List β, l.Pairwise lt → (insRow lt x l).Pairwise lt := by
  intro l
  induction l with
  | nil => intro _; simp [insRow]
  | cons y ys ih =>
      intro hp
      rcases List.pairwise_cons.mp hp with ⟨hhead, htail⟩
      unfold insRow
      by_cases h1 : lt x y
      · rw [if_pos h1]
        refine List.pairwise_cons.mpr ⟨?_, hp⟩
        intro z hz
        rcases List.mem_cons.mp hz with rfl | hz
        · exact h1
        · exact htrans x y z h1 (hhead z hz)
      · rw [if_neg h1]
        by_cases h2 : x = y
        · rw [if_pos h2]; exact hp
        · rw [if_neg h2]
          refine List.pairwise_cons.mpr ⟨?_, ih htail⟩
          intro z hz
          rcases (mem_insRow lt x z ys).mp hz with rfl | hz
          · rcases htri z y with h3 | h3 | h3
            · exact absurd h3 h1
            · exact absurd h3 h2
            · exact h3
          · exact hhead z hz

theorem pairwise_sdedup {β : Type} (lt : β → β → Prop) [DecidableRel lt]
    [DecidableEq β]
    (htri : ∀ a b, lt a b ∨ a = b ∨ lt b a)
    (htrans : ∀ a b c, lt a b → lt b c → lt a c) :
    ∀ l : List β, (sdedup lt l).Pairwise lt := by
  intro l
  induction l with
  | nil => simp [sdedup]
  | cons a l ih =>
      rw [sdedup_cons]
      exact pairwise_insRow lt htri htrans a _ ih

theorem nodup_sdedup {β : Type} (lt : β → β → Prop) [DecidableRel lt]
    [DecidableEq β]
    (htri : ∀ a b, lt a b ∨ a = b ∨ lt b a)
    (htrans : ∀ a b c, lt a b → lt b c → lt a c)
    (hirr : ∀ a, ¬ lt a a) (l : List β) : (sdedup lt l).Nodup := by
  have hp := pairwise_sdedup lt htri htrans l
  exact hp.imp (fun hab => fun heq => hirr _ (heq ▸ hab))

theorem sdedup_of_pairwise {β : Type} (lt : β → β → Prop) [DecidableRel lt]
    [DecidableEq β] : ∀ {l : List β}, l.Pairwise lt → sdedup lt l = l := by
  intro l
  induction l with
  | nil => intro _; rfl
  | cons a l ih =>
      intro hp
      rcases List.pairwise_cons.mp hp with ⟨hhead, htail⟩
      rw [sdedup_cons, ih htail]
      exact insRow_of_forall_lt lt a hhead

theorem findIdx0_lt {β : Type} [DecidableEq β] (x : β) :
    ∀ l : List β, x ∈ l → findIdx0 x l < l.length := by
  intro l
  induction l with
  | nil => intro h; simp at h
  | cons y ys ih =>
      intro hmem
      unfold findIdx0
      by_cases h : x = y
      · rw [if_pos h]; simp
      · rw [if_neg h]
        have : x ∈ ys := by
          rcases List.mem_cons.mp hmem with h1 | h1
          · exact absurd h1 h
          · exact h1
        simpa using ih this

theorem findIdx0_getElem {β : Type} [DecidableEq β] :
    ∀ (l : List β), l.Nodup → ∀ (i : Nat) (hi : i < l.length),
      findIdx0 (l.get ⟨i, hi⟩) l = i := by
  intro l
  induction l with
  | nil => intro _ i hi; simp at hi
  | cons a t ih =>
      intro hnd i hi
      rcases List.nodup_cons.mp hnd with ⟨hna, hndt⟩
      cases i with
      | zero => simp [findIdx0]
      | succ j =>
          have hj : j < t.length := by simpa using hi
          have hx : (a :: t).get ⟨j + 1, hi⟩ = t.get ⟨j, hj⟩ := rfl
          rw [hx]
          unfold findIdx0
          have hne2 : ¬ t.get ⟨j, hj⟩ = a := by
            intro hc
            apply hna
            rw [← hc]
            exact List.get_mem t j hj
          rw [if_neg hne2, ih hndt j hj]

theorem remapIdx_lt {β : Type} [DecidableEq β] (verts u : List β) (j : Nat)
    (hj : j < verts.length) (hmem : ∀ x ∈ verts, x ∈ u) :
    remapIdx verts u j < u.length := by
  unfold remapIdx
  rw [List.get?_eq_getElem?, List.getElem?_eq_getElem hj]
  exact findIdx0_lt _ u (hmem _ (List.getElem_mem hj))

theorem remapIdx_self {β : Type} [DecidableEq β] (u : List β) (hnd : u.Nodup)
    (j : Nat) (hj : j < u.length) : remapIdx u u j = j := by
  unfold remapIdx
  rw [List.get?_eq_getElem?, List.getElem?_eq_getElem hj]
  exact findIdx0_getElem u hnd j hj

theorem map_self_of_eq {γ : Type} (g : γ → γ) :
    ∀ l : List γ, (∀ x ∈ l, g x = x) → l.map g = l := by
  intro l
  induction l with
  | nil => intro _; rfl
  | cons a l ih =>
      intro h
      simp only [List.map_cons, h a (by simp), ih (fun x hx => h x (by simp [hx]))]

theorem plex_trich {α β : Type} [LinearOrder α] {lt : β → β → Prop}
    (h : ∀ a b, lt a b ∨ a = b ∨ lt b a) :
    ∀ p q : α × β, plex lt p q ∨ p = q ∨ plex lt q p := by
  intro p q
  rcases lt_trichotomy p.1 q.1 with h1 | h1 | h1
  · exact Or.inl (Or.inl h1)
  · rcases h p.2 q.2 with h2 | h2 | h2
    · exact Or.inl (Or.inr ⟨h1, h2⟩)
    · exact Or.inr (Or.inl (Prod.ext h1 h2))
    · exact Or.inr (Or.inr (Or.inr ⟨h1.symm, h2⟩))
  · exact Or.inr (Or.inr (Or.inl h1))

theorem plex_trans {α β : Type} [LinearOrder α] {lt : β → β → Prop}
    (h : ∀ a b c : β, lt a b → lt b c → lt a c) :
    ∀ p q r : α × β, plex lt p q → plex lt q r → plex lt p r := by
  rintro p q r (h1 | ⟨h1, h1b⟩) (h2 | ⟨h2, h2b⟩)
  · exact Or.inl (lt_trans h1 h2)
  · exact Or.inl (h2 ▸ h1)
  · exact Or.inl (by rw [h1]; exact h2)
  · exact Or.inr ⟨h1.trans h2, h p.2 q.2 r.2 h1b h2b⟩

theorem plex_irrefl {α β : Type} [LinearOrder α] {lt : β → β → Prop}
    (h : ∀ a : β, ¬ lt a a) : ∀ p : α × β, ¬ plex lt p p := by
  rintro p (h1 | ⟨-, h2⟩)
  · exact lt_irrefl _ h1
  · exact h _ h2

theorem lt3_trich {α : Type} [LinearOrder α] :
    ∀ a b : Vec3 α, lt3 a b ∨ a = b ∨ lt3 b a :=
  plex_trich (plex_trich (fun a b => lt_trichotomy a b))

theorem lt3_trans {α : Type} [LinearOrder α] :
    ∀ a b c : Vec3 α, lt3 a b → lt3 b c → lt3 a c :=
  plex_trans (plex_trans (fun a b c h1 h2 => lt_trans h1 h2))

theorem lt3_irrefl {α : Type} [LinearOrder α] : ∀ a : Vec3 α, ¬ lt3 a a :=
  plex_irrefl (plex_irrefl (fun a => lt_irrefl a))

theorem lt4_trich : ∀ a b : Vec4, lt4 a b ∨ a = b ∨ lt4 b a :=
  plex_trich lt3_trich

theorem lt4_trans : ∀ a b c : Vec4, lt4 a b → lt4 b c → lt4 a c :=
  plex_trans lt3_trans

theorem lt4_irrefl : ∀ a : Vec4, ¬ lt4 a a :=
  plex_irrefl lt3_irrefl

theorem feq32_refl {x : Nat} (h : isNaN32 x = false) : feq32 x x = true := by
  simp [feq32, h]

theorem listFeq_refl :
    ∀ l : List (Vec3 Nat),
      (∀ v ∈ l, isNaN32 v.1 = false ∧ isNaN32 v.2.1 = false ∧
        isNaN32 v.2.2 = false) → listFeq l l = true := by
  intro l
  induction l with
  | nil => intro _; rfl
  | cons v l ih =>
      intro h
      rcases h v (by simp) with ⟨h1, h2, h3⟩
      show (vfeq v v && listFeq l l) = true
      rw [ih (fun w hw => h w (by simp [hw]))]
      simp [vfeq, feq32_refl, h1, h2, h3]

theorem meshEq_refl_of_noNaN (m : Mesh Nat) (h1 : noNaNVerts m)
    (h2 : noNaNNormals m) : meshEq m m = true := by
  unfold meshEq
  simp only [bne_self_eq_false, Bool.false_eq_true, if_false]
  have hv : listFeq m.vertices m.vertices = true := listFeq_refl _ h1
  have hn : listFeq m.normals m.normals = true := listFeq_refl _ h2
  by_cases h : m.normals.isEmpty = true
  · rw [if_pos h, hv]
    simp
  · rw [if_neg h, hv, hn]
    simp

/-- C5 counterexample: on a mesh whose single face indexes past its single
vertex, consolidate raises IndexError (the vectorized remap indexes the
inverse array out of range), so no mesh is returned at all and the
idempotence equation fails as stated. -/
theorem c5_consolidate_counterexample :
    c5bad.consolidate = .error .indexError ∧
    ¬∃ r1 r2, c5bad.consolidate = .ok r1 ∧ r1.consolidate = .ok r2 ∧
      meshEq r2 r1 = true := by
  refine ⟨rfl, ?_⟩
  rintro ⟨r1, r2, h, -, -⟩
  rw [show c5bad.consolidate = Except.error PyErr.indexError from rfl] at h
  simp at h

/-- C5 (amended to meshes satisfying the face-validity invariant of the
data model and carrying no NaN coordinate): consolidate applied to its
own output returns that output unchanged, and the two results compare
equal under the mesh equality test. -/
theorem c5_consolidate_idempotent (m : Mesh Nat) (hval : facesValid m)
    (hnan : noNaNVerts m) :
    ∃ r, m.consolidate = .ok r ∧ r.consolidate = .ok r ∧
      meshEq r r = true := by
  by_cases hemp : m.isEmptyMesh = true
  · refine ⟨mdefault, ?_, rfl, rfl⟩
    unfold Mesh.consolidate
    rw [if_pos hemp]
    rfl
  · have hemp2 : m.isEmptyMesh = false := by
      revert hemp; cases m.isEmptyMesh <;> simp
    have hvfne : m.vertices ≠ [] ∧ m.faces ≠ [] := by
      revert hemp2
      unfold Mesh.isEmptyMesh
      cases hv : m.vertices <;> cases hf : m.faces <;> simp
    set u := sdedup lt3 m.vertices with hu
    set E := m.faces.map (map3 (remapIdx m.vertices u)) with hE
    set F := sdedup lt3 E with hF
    have humem : ∀ x ∈ m.vertices, x ∈ u := by
      intro x hx; rw [hu]; exact (mem_sdedup lt3 x m.vertices).mpr hx
    have hnodupu : u.Nodup :=
      nodup_sdedup lt3 lt3_trich lt3_trans lt3_irrefl m.vertices
    have hFE : ∀ f ∈ F, f ∈ E := by
      intro f hf; rw [hF] at hf; exact (mem_sdedup lt3 f E).mp hf
    have hFvalid : ∀ f ∈ F, f.1 < u.length ∧ f.2.1 < u.length ∧
        f.2.2 < u.length := by
      intro f hf
      rcases List.mem_map.mp (hFE f hf) with ⟨f0, hf0, rfl⟩
      rcases hval f0 hf0 with ⟨hb1, hb2, hb3⟩
      exact ⟨remapIdx_lt _ _ _ hb1 humem, remapIdx_lt _ _ _ hb2 humem,
        remapIdx_lt _ _ _ hb3 humem⟩
    have hune : u ≠ [] := sdedup_ne_nil lt3 hvfne.1
    have hFne : F ≠ [] := by
      rw [hF]
      apply sdedup_ne_nil lt3
      rw [hE]
      intro hcon
      exact hvfne.2 (List.map_eq_nil_iff.mp hcon)
    refine ⟨{ vertices := u, faces := F, normals := [], segid := m.segid,
              encodingType := m.encodingType }, ?_, ?_, ?_⟩
    · unfold Mesh.consolidate
      rw [if_neg (by rw [hemp2]; simp), if_pos hval]
    · unfold Mesh.consolidate
      rw [if_neg ?empcase, if_pos ?valcase]
      case empcase =>
        show ¬ ((u.isEmpty || F.isEmpty) = true)
        cases hu2 : u with
        | nil => exact absurd hu2 hune
        | cons a l =>
            cases hF2 : F with
            | nil => exact absurd hF2 hFne
            | cons b k => simp
      case valcase =>
        intro f hf
        exact hFvalid f hf
      show Except.ok
          ({ vertices := sdedup lt3 u,
             faces := sdedup lt3 (F.map (map3 (remapIdx u (sdedup lt3 u)))),
             normals := [], segid := m.segid,
             encodingType := m.encodingType } : Mesh Nat) = _
      have hufix : sdedup lt3 u = u :=
        sdedup_of_pairwise lt3 (pairwise_sdedup lt3 lt3_trich lt3_trans m.vertices)
      rw [hufix]
      have hmapid : F.map (map3 (remapIdx u u)) = F := by
        apply map_self_of_eq
        intro f hf
        rcases hFvalid f hf with ⟨hb1, hb2, hb3⟩
        show (remapIdx u u f.1, remapIdx u u f.2.1, remapIdx u u f.2.2) = f
        rw [remapIdx_self u hnodupu f.1 hb1, remapIdx_self u hnodupu f.2.1 hb2,
          remapIdx_self u hnodupu f.2.2 hb3]
      rw [hmapid]
      have hFfix : sdedup lt3 F = F := by
        rw [hF]
        exact sdedup_of_pairwise lt3 (pairwise_sdedup lt3 lt3_trich lt3_trans E)
      rw [hFfix]
    · apply meshEq_refl_of_noNaN
      · intro v hv
        exact hnan v ((mem_sdedup lt3 v m.vertices).mp (hu ▸ hv))
      · intro v hv
        simp at hv

/-- Witness for C5 at a concrete mesh with a duplicated vertex row. -/
theorem c5_consolidate_idempotent_witness :
    facesValid c5mesh ∧ noNaNVerts c5mesh ∧
    ∃ r, c5mesh.consolidate = .ok r ∧ r.consolidate = .ok r ∧
      meshEq r r = true :=
  ⟨by decide, by decide,
    c5_consolidate_idempotent c5mesh (by decide) (by decide)⟩

theorem feq32_symm (a b : Nat) : feq32 a b = feq32 b a := by
  unfold feq32
  have h : (a == b) = (b == a) := by
    by_cases h : a = b
    · simp [h]
    · have h2 : ¬ b = a := fun hc => h hc.symm
      simp [h, h2]
  rw [h]
  cases hna : isNaN32 a <;> cases hnb : isNaN32 b <;>
    cases hza : isZero32 a <;> cases hzb : isZero32 b <;>
      cases hba : b == a <;> rfl

theorem vfeq_symm (v w : Vec3 Nat) : vfeq v w = vfeq w v := by
  unfold vfeq
  rw [feq32_symm v.1 w.1, feq32_symm v.2.1 w.2.1, feq32_symm v.2.2 w.2.2]

theorem listFeq_symm : ∀ l1 l2 : List (Vec3 Nat), listFeq l1 l2 = listFeq l2 l1 := by
  intro l1
  induction l1 with
  | nil => intro l2; cases l2 <;> rfl
  | cons x xs ih =>
      intro l2
      cases l2 with
      | nil => rfl
      | cons y ys =>
          show (vfeq x y && listFeq xs ys) = (vfeq y x && listFeq ys xs)
          rw [vfeq_symm x y, ih ys]

theorem meshEq_symm (m1 m2 : Mesh Nat) : meshEq m1 m2 = meshEq m2 m1 := by
  simp only [meshEq]
  have hbeq : (m1.faces == m2.faces) = (m2.faces == m1.faces) := by
    by_cases h : m1.faces = m2.faces
    · simp [h]
    · have h2 : ¬ m2.faces = m1.faces := fun hc => h hc.symm
      simp [h, h2]
  rw [hbeq, listFeq_symm m1.vertices m2.vertices, listFeq_symm m1.normals m2.normals]
  cases h1 : m1.normals.isEmpty <;> cases h2 : m2.normals.isEmpty <;> simp

theorem meshEq_geom (m1 m2 : Mesh Nat)
    (hv : listFeq m1.vertices m2.vertices = true)
    (hf : m1.faces = m2.faces)
    (hp : m1.normals.isEmpty = m2.normals.isEmpty)
    (hn : m1.normals.isEmpty = false → listFeq m1.normals m2.normals = true) :
    meshEq m1 m2 = true := by
  simp only [meshEq]
  rw [← hp, bne_self_eq_false]
  simp only [Bool.false_eq_true, if_false]
  rw [hv, hf]
  simp only [beq_self_eq_true, Bool.and_true, Bool.true_and]
  by_cases h : m1.normals.isEmpty = true
  · rw [if_pos h]
  · rw [if_neg h]
    rw [hn (by revert h; cases m1.normals.isEmpty <;> simp)]

/-- C8 counterexample: the equality test is not reflexive at nanMesh (a
NaN coordinate compares unequal to itself under numpy float comparison),
and two meshes with elementwise-equal vertices and faces and equal
normals-presence still compare unequal when their normal values differ. -/
theorem c8_equality_counterexample :
    meshEq nanMesh nanMesh = false ∧
    listFeq normMeshA.vertices normMeshB.vertices = true ∧
    normMeshA.faces = normMeshB.faces ∧
    normMeshA.normals.isEmpty = normMeshB.normals.isEmpty ∧
    meshEq normMeshA normMeshB = false :=
  ⟨by decide, by decide, rfl, rfl, by decide⟩

/-- C8 (amended): the equality test is reflexive on meshes whose vertex
and normal coordinates contain no NaN pattern, symmetric on all meshes,
never reads segid or encoding metadata, and returns True for meshes whose
vertices and faces compare elementwise equal with the same
normals-presence and elementwise-equal normals when present. -/
theorem c8_equality_properties :
    (∀ m : Mesh Nat, noNaNVerts m → noNaNNormals m → meshEq m m = true) ∧
    (∀ m1 m2 : Mesh Nat, meshEq m1 m2 = meshEq m2 m1) ∧
    (∀ m1 m2 : Mesh Nat, ∀ s1 s2 : Option Int, ∀ e1 e2 : EncVal,
      meshEq { m1 with segid := s1, encodingType := e1 }
        { m2 with segid := s2, encodingType := e2 } = meshEq m1 m2) ∧
    (∀ m1 m2 : Mesh Nat, listFeq m1.vertices m2.vertices = true →
      m1.faces = m2.faces → m1.normals.isEmpty = m2.normals.isEmpty →
      (m1.normals.isEmpty = false → listFeq m1.normals m2.normals = true) →
      meshEq m1 m2 = true) :=
  ⟨meshEq_refl_of_noNaN, meshEq_symm,
    fun _ _ _ _ _ _ => rfl, meshEq_geom⟩

/-- Witness for C8: reflexivity discharged at a NaN-free mesh, and the
geometry-only test discharged at a mesh paired with a metadata-modified
copy of itself. -/
theorem c8_equality_properties_witness :
    noNaNVerts nanFreeMesh ∧ noNaNNormals nanFreeMesh ∧
    meshEq nanFreeMesh nanFreeMesh = true ∧
    meshEq normMeshA { normMeshA with segid := some 5 } = true :=
  ⟨by decide, by decide,
    c8_equality_properties.1 nanFreeMesh (by decide) (by decide),
    c8_equality_properties.2.2.2 normMeshA { normMeshA with segid := some 5 }
      (by decide) rfl rfl (fun _ => by decide)⟩

theorem qmod_eq_zero_iff {a cs : ℚ} (hcs : 0 < cs) :
    qmod a cs = 0 ↔ ∃ k : ℤ, a = k * cs := by
  unfold qmod
  constructor
  · intro h
    refine ⟨⌊a / cs⌋, ?_⟩
    have h2 : a = cs * (⌊a / cs⌋ : ℚ) := by linarith
    rw [mul_comm] at h2
    exact h2
  · rintro ⟨k, rfl⟩
    have hcs0 : cs ≠ 0 := ne_of_gt hcs
    rw [mul_div_cancel_right₀ _ hcs0, Int.floor_intCast]
    ring

theorem range_map_getD {γ : Type} (f : Nat → γ) (d : γ) (n i : Nat)
    (hi : i < n) : ((List.range n).map f).getD i d = f i := by
  rw [List.getD_eq_getElem?_getD, List.getElem?_map, List.getElem?_range hi]
  rfl

theorem newVertices_getD (m : Mesh ℚ) (cs g : ℚ) (isD : Bool) (i : Nat)
    (hi : i < m.vertices.length) :
    (newVertices m cs g isD).getD i z4 =
      ((m.vertices.getD i z3).1, (m.vertices.getD i z3).2.1,
        (m.vertices.getD i z3).2.2,
        if doMergeAt m cs g isD i then (-1 : ℚ) else (i : ℚ)) := by
  unfold newVertices
  exact range_map_getD _ z4 _ i hi

theorem isChunkAligned_false (v : Vec3 ℚ) (cs g : ℚ) :
    isChunkAligned false v cs g = isStdChunkAligned v cs := rfl

theorem doMergeAt_std_iff (m : Mesh ℚ) (cs g : ℚ) (hcs : 0 < cs) (i : Nat) :
    doMergeAt m cs g false i = true ↔
      ((∃ k : ℤ, (m.vertices.getD i z3).1 = k * cs) ∨
       (∃ k : ℤ, (m.vertices.getD i z3).2.1 = k * cs) ∨
       (∃ k : ℤ, (m.vertices.getD i z3).2.2 = k * cs)) ∧
      m.vertices.countP (fun w => w = m.vertices.getD i z3) = 2 := by
  simp only [doMergeAt, isChunkAligned_false, isStdChunkAligned,
    Bool.and_eq_true, Bool.or_eq_true, decide_eq_true_eq, beq_iff_eq]
  rw [qmod_eq_zero_iff hcs, qmod_eq_zero_iff hcs, qmod_eq_zero_iff hcs]
  tauto

/-- C6: with the standard alignment test, the synthetic fourth coordinate
of the row built for vertex i holds the sentinel minus one exactly when
some coordinate of vertex i is an exact integer multiple of the chunk
size and the coordinate triple of vertex i occurs exactly twice in the
full vertex array; vertices whose triple occurs once or three or more
times keep their own index there and are never merged. -/
theorem c6_merge_iff (m : Mesh ℚ) (cs : ℚ) (hcs : 0 < cs) (g : ℚ) (i : Nat)
    (hi : i < m.vertices.length) : C6Post m cs g i := by
  unfold C6Post
  rw [newVertices_getD m cs g false i hi]
  show (if doMergeAt m cs g false i then (-1 : ℚ) else (i : ℚ)) = -1 ↔ _
  by_cases hM : doMergeAt m cs g false i = true
  · rw [if_pos hM]
    exact iff_of_true rfl ((doMergeAt_std_iff m cs g hcs i).mp hM)
  · rw [if_neg hM]
    refine iff_of_false ?_ ?_
    · intro h
      have h0 : (0 : ℚ) ≤ (i : ℚ) := Nat.cast_nonneg i
      rw [h] at h0
      norm_num at h0
    · intro hr
      exact hM ((doMergeAt_std_iff m cs g hcs i).mpr hr)

/-- Witness for C6 at a concrete mesh whose vertex 0 lies on the chunk
boundary and is duplicated exactly twice. -/
theorem c6_merge_iff_witness :
    (0 : ℚ) < 100 ∧ 0 < c6mesh.vertices.length ∧ C6Post c6mesh 100 21 0 :=
  ⟨by norm_num, by decide,
    c6_merge_iff c6mesh 100 (by norm_num) 21 0 (by decide)⟩

theorem axis_test_iff (x cs g : ℚ) :
    (decide (dist_to_chunk x cs < dist_to_chunk (x - g) cs) &&
     decide (dist_to_chunk x cs < dist_to_chunk (x + g) cs) &&
     decide (dist_to_chunk x cs < g)) = true ↔
      dist_to_chunk x cs < dist_to_chunk (x + g) cs ∧
      dist_to_chunk x cs < dist_to_chunk (x - g) cs ∧
      dist_to_chunk x cs < g := by
  simp only [Bool.and_eq_true, decide_eq_true_eq]
  tauto

/-- C7: the draco-aligned test classifies a vertex as boundary aligned
exactly when on some axis its boundary distance is strictly below the
boundary distance of the vertex shifted up by the grid size, strictly
below that of the vertex shifted down by the grid size, and strictly
below the grid size itself. -/
theorem c7_draco_aligned_iff (v : Vec3 ℚ) (cs g : ℚ) :
    is_draco_chunk_aligned v cs g = true ↔
      ∃ i : Fin 3,
        dist_to_chunk (vecNth v i) cs < dist_to_chunk (vecNth v i + g) cs ∧
        dist_to_chunk (vecNth v i) cs < dist_to_chunk (vecNth v i - g) cs ∧
        dist_to_chunk (vecNth v i) cs < g := by
  show ((decide (dist_to_chunk v.1 cs < dist_to_chunk (v.1 - g) cs) &&
         decide (dist_to_chunk v.1 cs < dist_to_chunk (v.1 + g) cs) &&
         decide (dist_to_chunk v.1 cs < g)) ||
        (decide (dist_to_chunk v.2.1 cs < dist_to_chunk (v.2.1 - g) cs) &&
         decide (dist_to_chunk v.2.1 cs < dist_to_chunk (v.2.1 + g) cs) &&
         decide (dist_to_chunk v.2.1 cs < g)) ||
        (decide (dist_to_chunk v.2.2 cs < dist_to_chunk (v.2.2 - g) cs) &&
         decide (dist_to_chunk v.2.2 cs < dist_to_chunk (v.2.2 + g) cs) &&
         decide (dist_to_chunk v.2.2 cs < g))) = true ↔ _
  simp only [Bool.or_eq_true]
  rw [axis_test_iff, axis_test_iff, axis_test_iff]
  constructor
  · rintro ((h | h) | h)
    exacts [⟨0, h⟩, ⟨1, h⟩, ⟨2, h⟩]
  · rintro ⟨i, h⟩
    match i with
    | 0 => exact Or.inl (Or.inl h)
    | 1 => exact Or.inl (Or.inr h)
    | 2 => exact Or.inr h

theorem mem_flatFaces_lt (m : Mesh ℚ) (hval : facesValid m) :
    ∀ j ∈ flatFaces m.faces, j < m.vertices.length := by
  intro j hj
  unfold flatFaces at hj
  rcases mem_flat3.mp hj with ⟨f, hf, h | h | h⟩ <;>
    { subst h; rcases hval f hf with ⟨a, b, c⟩; assumption }

/-- C10 counterexample: on a mesh whose single face indexes past its
single vertex, deduplicate_chunk_boundaries raises IndexError (fancy
indexing of the synthetic row array by the flattened faces), so no mesh
is returned at all. -/
theorem c10_dedup_counterexample :
    c10bad.dedupChunkBoundaries 100 false 21 = .error .indexError ∧
    ¬∃ r, c10bad.dedupChunkBoundaries 100 false 21 = .ok r := by
  refine ⟨rfl, ?_⟩
  rintro ⟨r, h⟩
  rw [show c10bad.dedupChunkBoundaries 100 false 21 =
    .error .indexError from rfl] at h
  simp at h

/-- C10 (amended to meshes satisfying the face-validity invariant): the
result of deduplicate_chunk_boundaries holds exactly the distinct 4-wide
rows referenced through the flattened face list, in the sorted order of
the uniqueness pass with the synthetic column dropped; rows of vertices
referenced by no face are dropped even when their triple is not
duplicated. -/
theorem c10_dedup_result (m : Mesh ℚ) (cs : ℚ) (isD : Bool) (g : ℚ)
    (hval : facesValid m) : C10Post m cs isD g := by
  unfold C10Post
  refine ⟨{ vertices := (sdedup lt4 (gatherRows m cs g isD)).map v4xyz,
            faces := group3 ((gatherRows m cs g isD).map
              (fun r => findIdx0 r (sdedup lt4 (gatherRows m cs g isD)))),
            normals := [], segid := m.segid, encodingType := m.encodingType },
    ?_, rfl, ?_, ?_, ?_, ?_⟩
  · unfold Mesh.dedupChunkBoundaries
    rw [if_pos hval]
  · intro q
    rw [mem_sdedup lt4 q]
    unfold gatherRows
    rw [List.mem_map]
    constructor
    · rintro ⟨j, hj, rfl⟩
      exact ⟨j, hj, rfl⟩
    · rintro ⟨j, hj, rfl⟩
      exact ⟨j, hj, rfl⟩
  · exact nodup_sdedup lt4 lt4_trich lt4_trans lt4_irrefl _
  · exact pairwise_sdedup lt4 lt4_trich lt4_trans _
  · intro i hi hcount hnotref hmem
    rw [mem_sdedup lt4] at hmem
    unfold gatherRows at hmem
    rcases List.mem_map.mp hmem with ⟨j, hj, hjeq⟩
    have hjlt : j < m.vertices.length := mem_flatFaces_lt m hval j hj
    have hMi : doMergeAt m cs g isD i = false := by
      simp only [doMergeAt]
      rw [hcount]
      simp
    rw [newVertices_getD m cs g isD i hi, newVertices_getD m cs g isD j hjlt]
      at hjeq
    have h4 := congrArg (fun p : Vec4 => p.2.2.2) hjeq
    simp only at h4
    rw [hMi] at h4
    simp only [Bool.false_eq_true, if_false] at h4
    by_cases hMj : doMergeAt m cs g isD j = true
    · rw [if_pos hMj] at h4
      have h0 : (0 : ℚ) ≤ (i : ℚ) := Nat.cast_nonneg i
      rw [← h4] at h0
      norm_num at h0
    · rw [if_neg hMj] at h4
      have hji : j = i := Nat.cast_injective h4
      subst hji
      exact hnotref hj

/-- Witness for C10 at a concrete valid mesh whose vertex 2 is referenced
by no face. -/
theorem c10_dedup_result_witness :
    facesValid c10mesh ∧ C10Post c10mesh 100 false 21 :=
  ⟨by decide, c10_dedup_result c10mesh 100 false 21 (by decide)⟩

/-- C9 counterexample: Mesh([], []), the construction consolidate
performs for an empty input mesh, stores a one dimensional empty vertex
array: the constructor coerces the dtype but never reshapes, so the
vertices buffer of this Mesh is not a 3-wide float32 array. -/
theorem c9_shape_counterexample :
    ¬ isThreeWide consolidateEmptyCtor.vertices .float32 := by
  rintro ⟨-, rows, hrows, -⟩
  rw [show consolidateEmptyCtor.vertices.data = NpData.one [] from rfl] at hrows
  exact NpData.noConfusion hrows

/-- C9 (amended): the constructor always records the float32 dtype for
vertices and the uint32 dtype for faces (the dtype half of the coercion),
and it preserves the shape of its input, so the arrays are 3-wide exactly
when the inputs are sequences of 3-element rows. -/
theorem c9_dtype_and_shape (vin fin : NpIn) (nin : Option NpIn) :
    C9Post vin fin nin := by
  refine ⟨rfl, rfl, ?_, ?_⟩
  · rintro rows rfl h3
    exact ⟨rfl, rows, rfl, h3⟩
  · rintro rows rfl h3
    exact ⟨rfl, rows, rfl, h3⟩

/-- Witness for C9 at concrete 3-wide constructor inputs. -/
theorem c9_dtype_and_shape_witness :
    isThreeWide (meshCtor c9vin c9fin none).vertices .float32 ∧
    isThreeWide (meshCtor c9vin c9fin none).faces .uint32 :=
  ⟨(c9_dtype_and_shape c9vin c9fin none).2.2.1 [[1, 2, 3]] rfl (by decide),
   (c9_dtype_and_shape c9vin c9fin none).2.2.2 [[0, 0, 0]] rfl (by decide)⟩
